import Mathlib

/-!
Shallow embedding of the Aggregation & Reporting Engine of the
USA-Spending-VITG repository (source file `src/script_llm.py`).

Conventions of the embedding:
* Python numbers are modelled by `Rat` (exact arithmetic).
* A raw JSON field value is a `PyVal` (null, number, or string); an absent
  key is `Option.none` at the record level.
* Python functions that can raise are modelled with `Except PyError`.
* `statistics.stdev` returns a square root, which is irrational in general;
  the statistics record therefore stores the *square* of the standard
  deviation (`std_dev_sq`), which determines the standard deviation
  uniquely since the latter is nonnegative.
* Python's stable built-in sort is modelled by `List.insertionSort`,
  which is extensionally the unique stable sort for a total preorder.
-/

/-- A raw JSON-ish value as it arrives from the query service:
null, a number, or a string. -/
inductive PyVal where
  | none : PyVal
  | num : Rat → PyVal
  | str : String → PyVal
deriving DecidableEq

/-- Python truthiness for the values of `PyVal`:
`None`, `0` and the empty string are falsy, everything else is truthy. -/
def pyTruthy : PyVal → Bool
  | PyVal.none => false
  | PyVal.num q => decide (q ≠ 0)
  | PyVal.str s => decide (s ≠ "")

/-- `true` iff the value is a number. -/
def isNum : PyVal → Bool
  | PyVal.num _ => true
  | _ => false

/-- The Python errors the statistics code can raise: `TypeError`
(summing a non-number) and `ValueError` (`min` of an empty sequence;
this is how the design's `NoPositiveAwardError` surfaces). -/
inductive PyError where
  | typeError : PyError
  | valueError : PyError
deriving DecidableEq

/-- One raw award record, restricted to the fields `calculate_statistics`
reads (`Recipient Name`, `Award Amount`, `Contract Award Type`);
an absent key is `Option.none`. -/
structure RawRecord where
  recipientName : Option String := Option.none
  awardAmount : Option PyVal := Option.none
  contractAwardType : Option String := Option.none
deriving DecidableEq

/-- Line 47 / 66 of `script_llm.py`: `x.get('Award Amount', 0) or 0` —
get with default `0`, then replace a falsy value by `0`. -/
def normAmount (o : Option PyVal) : PyVal :=
  let v := o.getD (PyVal.num 0)
  if pyTruthy v then v else PyVal.num 0

/-- Models Python `sum` / `mean` scanning the amounts left to right:
the first non-numeric entry raises `TypeError`. -/
def toNums : List PyVal → Except PyError (List Rat)
  | [] => Except.ok []
  | PyVal.num q :: t =>
    match toNums t with
    | Except.ok l => Except.ok (q :: l)
    | Except.error e => Except.error e
  | _ :: _ => Except.error PyError.typeError

/-- Round a rational to the nearest integer, ties to even
(the rounding used by Python's fixed-point string formatting). -/
def roundHalfEven (q : Rat) : Int :=
  let n := q.floor
  let r := q - (n : Rat)
  if r < 1/2 then n
  else if 1/2 < r then n + 1
  else if n % 2 = 0 then n else n + 1

/-- Reversed digit list with a comma inserted after every three digits
(helper for the thousands separators of Python's comma format spec). -/
def commaChunks : List Char → List Char
  | [] => []
  | [a] => [a]
  | [a, b] => [a, b]
  | [a, b, c] => [a, b, c]
  | a :: b :: c :: d :: rest => a :: b :: c :: ',' :: commaChunks (d :: rest)

/-- Decimal rendering of a natural number with thousands separators. -/
def commaFormat (m : Nat) : String :=
  String.mk (commaChunks (toString m).data.reverse).reverse

/-- Python fixed-point formatting with one decimal digit
(round half to even). -/
def fixed1 (q : Rat) : String :=
  let m := (roundHalfEven (q * 10)).natAbs
  (if q < 0 then "-" else "") ++ toString (m / 10) ++ "." ++ toString (m % 10)

/-- Python comma-grouped fixed-point formatting with two decimal digits
(round half to even, thousands separators in the integer part). -/
def comma2 (q : Rat) : String :=
  let m := (roundHalfEven (q * 100)).natAbs
  let frac := m % 100
  (if q < 0 then "-" else "") ++ commaFormat (m / 100) ++ "." ++
    (if frac < 10 then "0" else "") ++ toString frac

/-- Lines 18-30 of `script_llm.py`: `format_currency`. -/
def format_currency (amount : Option Rat) : String :=
  match amount with
  | Option.none => "$0"
  | some a =>
    if a = 0 then "$0"
    else if 1000000000 ≤ a then "$" ++ fixed1 (a / 1000000000) ++ "B"
    else if 1000000 ≤ a then "$" ++ fixed1 (a / 1000000) ++ "M"
    else if 1000 ≤ a then "$" ++ fixed1 (a / 1000) ++ "K"
    else "$" ++ comma2 a

/-- Lines 32-36 of `script_llm.py`: `truncate_text`. -/
def truncate_text (text : Option String) (max_length : Nat) : String :=
  match text with
  | Option.none => "N/A"
  | some t =>
    if t = "" ∨ t = "N/A" then "N/A"
    else if max_length < t.length then t.take max_length ++ "..." else t

/-- The statistics record built by `calculate_statistics`
(lines 48-71; `std_dev_sq` holds the square of the `std_dev` entry). -/
structure Stats where
  total_awards : Nat
  total_value : Rat
  average_award : Rat
  median_award : Rat
  std_dev_sq : Rat
  max_award : Rat
  min_award : Rat
  contract_types : List (String × Nat)
  top_recipients : List (String × Rat)
deriving DecidableEq

/-- Python `min` over a nonempty list (left fold). -/
def minNE : List Rat → Rat
  | [] => 0
  | h :: t => t.foldl min h

/-- Python `max` over a nonempty list (left fold). -/
def maxNE : List Rat → Rat
  | [] => 0
  | h :: t => t.foldl max h

/-- `statistics.median`: middle of the sorted series, averaging the two
central values for an even count. -/
def medianR (xs : List Rat) : Rat :=
  let s := List.insertionSort (fun a b : Rat => a ≤ b) xs
  if xs.length % 2 = 1 then s.getD (xs.length / 2) 0
  else (s.getD (xs.length / 2 - 1) 0 + s.getD (xs.length / 2) 0) / 2

/-- The square of `statistics.stdev`: sample variance with the n-1
denominator, computed as in CPython's `statistics._ss` (sum of squared
deviations from the mean, with the second-order correction term). -/
def ssVar (xs : List Rat) : Rat :=
  let c := xs.sum / (xs.length : Rat)
  let d := xs.map (fun x => x - c)
  (((d.map (fun y => y * y)).sum) - (d.sum) ^ 2 / (xs.length : Rat)) /
    ((xs.length : Rat) - 1)

/-- Lines 63-67: the dict-based per-recipient accumulation. Updating an
existing key keeps its position; a new key is appended (Python dicts
preserve insertion order). -/
def updateGroup : List (String × Rat) → String → Rat → List (String × Rat)
  | [], k, a => [(k, a)]
  | (k0, v0) :: t, k, a =>
    if k0 = k then (k0, v0 + a) :: t else (k0, v0) :: updateGroup t k a

/-- The recipient totals dict of lines 63-67, as an insertion-ordered
association list. -/
def groupTotals (rs : List (String × Rat)) : List (String × Rat) :=
  rs.foldl (fun acc p => updateGroup acc p.1 p.2) []

/-- Line 59: `Counter` over the contract award types, insertion-ordered. -/
def bumpKey : List (String × Nat) → String → List (String × Nat)
  | [], k => [(k, 1)]
  | (k0, c) :: t, k =>
    if k0 = k then (k0, c + 1) :: t else (k0, c) :: bumpKey t k

/-- The contract-type histogram of line 59. -/
def countKeys (l : List String) : List (String × Nat) :=
  l.foldl bumpKey []

/-- The comparison used by line 69-71:
`sorted(..., key=lambda x: x[1], reverse=True)` puts `a` no later than `b`
exactly when `b`'s total is at most `a`'s total. -/
def rDesc (a b : String × Rat) : Prop := b.2 ≤ a.2

instance : DecidableRel rDesc := fun a b => inferInstanceAs (Decidable (b.2 ≤ a.2))

instance : IsTotal (String × Rat) rDesc := ⟨fun a b => le_total b.2 a.2⟩

instance : IsTrans (String × Rat) rDesc := ⟨fun _ _ _ h1 h2 => le_trans h2 h1⟩

/-- Python's stable descending sort by summed amount (line 69-71). -/
def sortDescBySnd (l : List (String × Rat)) : List (String × Rat) :=
  List.insertionSort rDesc l

/-- Lines 38-73 of `script_llm.py`: `calculate_statistics`.
Empty input returns `None` (line 40-41); a non-numeric award amount makes
the summation raise `TypeError`; when no award amount is positive, the
generator fed to `min` on line 55 is empty and `min` raises `ValueError`. -/
def calculate_statistics (data : List RawRecord) :
    Except PyError (Option Stats) :=
  if data.isEmpty then Except.ok Option.none
  else
    match toNums (data.map (fun x => normAmount x.awardAmount)) with
    | Except.error e => Except.error e
    | Except.ok award_amounts =>
      let positives := award_amounts.filter (fun x => decide (0 < x))
      if positives.isEmpty then Except.error PyError.valueError
      else
        let names := data.map (fun x => x.recipientName.getD "Unknown")
        Except.ok (some {
          total_awards := data.length
          total_value := award_amounts.sum
          average_award := award_amounts.sum / (award_amounts.length : Rat)
          median_award := medianR award_amounts
          std_dev_sq := if 1 < award_amounts.length then ssVar award_amounts else 0
          max_award := maxNE award_amounts
          min_award := minNE positives
          contract_types := countKeys (data.map (fun x => x.contractAwardType.getD "Unknown"))
          top_recipients := (sortDescBySnd (groupTotals (names.zip award_amounts))).take 5 })

/-- A record as produced by normalization of a (name, amount) pair with a
numeric amount and no contract-type field. -/
def mkRecord (p : String × Rat) : RawRecord :=
  { recipientName := some p.1
    awardAmount := some (PyVal.num p.2)
    contractAwardType := Option.none }

/-- A list of records with numeric amounts. -/
def mkRecs (rs : List (String × Rat)) : List RawRecord :=
  rs.map mkRecord

/-- The statistics value `calculate_statistics` returns on `mkRecs rs`
when it succeeds. -/
def statsFor (rs : List (String × Rat)) : Stats :=
  let amounts := rs.map Prod.snd
  { total_awards := rs.length
    total_value := amounts.sum
    average_award := amounts.sum / (amounts.length : Rat)
    median_award := medianR amounts
    std_dev_sq := if 1 < amounts.length then ssVar amounts else 0
    max_award := maxNE amounts
    min_award := minNE (amounts.filter (fun x => decide (0 < x)))
    contract_types := countKeys (List.replicate rs.length "Unknown")
    top_recipients := (sortDescBySnd (groupTotals rs)).take 5 }

lemma normAmount_num (a : Rat) :
    normAmount (some (PyVal.num a)) = PyVal.num a := by
  by_cases h : a = 0
  · subst h; simp [normAmount, pyTruthy]
  · simp [normAmount, pyTruthy, h]

lemma toNums_map_num : ∀ l : List Rat, toNums (l.map PyVal.num) = Except.ok l
  | [] => rfl
  | q :: t => by simp [toNums, toNums_map_num t]

lemma mkRecs_amounts (rs : List (String × Rat)) :
    (mkRecs rs).map (fun x => normAmount x.awardAmount) =
      (rs.map Prod.snd).map PyVal.num := by
  simp [mkRecs, List.map_map, Function.comp, mkRecord, normAmount_num]

lemma mkRecs_names (rs : List (String × Rat)) :
    (mkRecs rs).map (fun x => x.recipientName.getD "Unknown") =
      rs.map Prod.fst := by
  simp [mkRecs, List.map_map, Function.comp, mkRecord]

lemma zip_fst_snd (rs : List (String × Rat)) :
    (rs.map Prod.fst).zip (rs.map Prod.snd) = rs := by
  rw [List.zip_map']
  simp

/-- Evaluation of `calculate_statistics` on numeric records in the
success case: nonempty input with at least one positive amount. -/
lemma calc_eq (rs : List (String × Rat)) (hne : rs ≠ [])
    (hpos : (rs.map Prod.snd).filter (fun x => decide (0 < x)) ≠ []) :
    calculate_statistics (mkRecs rs) = Except.ok (some (statsFor rs)) := by
  unfold calculate_statistics
  rw [mkRecs_amounts, toNums_map_num]
  have h1 : (mkRecs rs).isEmpty = false := by
    cases rs with
    | nil => exact absurd rfl hne
    | cons a t => rfl
  rw [h1]
  simp only [Bool.false_eq_true, if_false]
  have h2 : ((rs.map Prod.snd).filter (fun x => decide (0 < x))).isEmpty = false := by
    cases h : (rs.map Prod.snd).filter (fun x => decide (0 < x)) with
    | nil => exact absurd h hpos
    | cons a t => rfl
  rw [h2]
  simp only [Bool.false_eq_true, if_false, mkRecs_names, zip_fst_snd]
  unfold statsFor
  simp [mkRecs, List.map_map, Function.comp_def, mkRecord]

lemma foldl_min_le_init : ∀ (t : List Rat) (a : Rat), t.foldl min a ≤ a
  | [], a => le_refl a
  | x :: t, a => le_trans (foldl_min_le_init t (min a x)) (min_le_left a x)

lemma foldl_min_le_mem : ∀ (t : List Rat) (a x : Rat), x ∈ t → t.foldl min a ≤ x
  | [], _, _, h => absurd h (List.not_mem_nil _)
  | y :: t, a, x, h => by
    rcases List.mem_cons.mp h with rfl | h
    · exact le_trans (foldl_min_le_init t (min a x)) (min_le_right a x)
    · exact foldl_min_le_mem t (min a y) x h

lemma foldl_min_mem : ∀ (t : List Rat) (a : Rat), t.foldl min a = a ∨ t.foldl min a ∈ t
  | [], _ => Or.inl rfl
  | y :: t, a => by
    rcases foldl_min_mem t (min a y) with h | h
    · rcases min_choice a y with h2 | h2
      · exact Or.inl (by rw [List.foldl_cons, h, h2])
      · exact Or.inr (by
          rw [List.foldl_cons, h, h2]
          exact List.mem_cons_self y t)
    · exact Or.inr (List.mem_cons_of_mem y h)

lemma minNE_le (l : List Rat) (x : Rat) (hx : x ∈ l) : minNE l ≤ x := by
  cases l with
  | nil => cases hx
  | cons h t =>
    rcases List.mem_cons.mp hx with rfl | hm
    · exact foldl_min_le_init t x
    · exact foldl_min_le_mem t h x hm

lemma minNE_mem (l : List Rat) (hne : l ≠ []) : minNE l ∈ l := by
  cases l with
  | nil => exact absurd rfl hne
  | cons h t =>
    rcases foldl_min_mem t h with e | e
    · rw [minNE, e]; exact List.mem_cons_self h t
    · exact List.mem_cons_of_mem h (by rw [minNE]; exact e)

/-- Evaluation of `calculate_statistics` on numeric records when no
amount is positive: the `min` on line 55 raises `ValueError`. -/
lemma calc_noPos (rs : List (String × Rat)) (hne : rs ≠ [])
    (hflt : (rs.map Prod.snd).filter (fun x => decide (0 < x)) = []) :
    calculate_statistics (mkRecs rs) = Except.error PyError.valueError := by
  unfold calculate_statistics
  rw [mkRecs_amounts, toNums_map_num]
  have h1 : (mkRecs rs).isEmpty = false := by
    cases rs with
    | nil => exact absurd rfl hne
    | cons a t => rfl
  rw [h1]
  simp only [Bool.false_eq_true, if_false, hflt, List.isEmpty_nil, if_true]

/-- C1: for a non-empty record list with at least one positive award
amount, the statistics succeed and `min_award` is the minimum of the
strictly positive amounts (zeros excluded); for a non-empty all-zero
list, the computation fails with the error modelling
`NoPositiveAwardError` (Python's `ValueError` from `min` on line 55) —
an error, never a silently returned 0. -/
theorem c1_min_award_positive_only (rs : List (String × Rat)) (hne : rs ≠ []) :
    ((∃ p ∈ rs, 0 < p.2) →
      ∃ s, calculate_statistics (mkRecs rs) = Except.ok (some s) ∧
        s.min_award ∈ (rs.map Prod.snd).filter (fun x => decide (0 < x)) ∧
        ∀ x ∈ (rs.map Prod.snd).filter (fun x => decide (0 < x)), s.min_award ≤ x)
    ∧ ((∀ p ∈ rs, p.2 = 0) →
        calculate_statistics (mkRecs rs) = Except.error PyError.valueError) := by
  constructor
  · rintro ⟨p, hp, hp0⟩
    have hmem : p.2 ∈ (rs.map Prod.snd).filter (fun x => decide (0 < x)) :=
      List.mem_filter.mpr ⟨List.mem_map_of_mem Prod.snd hp, by simpa using hp0⟩
    have hposne : (rs.map Prod.snd).filter (fun x => decide (0 < x)) ≠ [] :=
      List.ne_nil_of_mem hmem
    refine ⟨statsFor rs, calc_eq rs hne hposne, ?_, ?_⟩
    · exact minNE_mem _ hposne
    · exact fun x hx => minNE_le _ x hx
  · intro h0
    apply calc_noPos rs hne
    rw [List.filter_eq_nil_iff]
    intro x hx
    rcases List.mem_map.mp hx with ⟨p, hp, rfl⟩
    rw [h0 p hp]
    simp

theorem c1_witness :
    ∃ s, calculate_statistics (mkRecs [("A", 0), ("B", 0), ("C", 50)]) =
        Except.ok (some s) ∧
      s.min_award ∈ (([("A", 0), ("B", 0), ("C", 50)] :
          List (String × Rat)).map Prod.snd).filter (fun x => decide (0 < x)) ∧
      ∀ x ∈ (([("A", 0), ("B", 0), ("C", 50)] :
          List (String × Rat)).map Prod.snd).filter (fun x => decide (0 < x)),
        s.min_award ≤ x :=
  (c1_min_award_positive_only [("A", 0), ("B", 0), ("C", 50)] (by decide)).1
    ⟨("C", 50), by decide, by decide⟩

/-- C2 counterexample: on the empty record list `calculate_statistics`
returns the non-error value `None` (line 40-41), not an error. -/
theorem c2_counterexample :
    calculate_statistics ([] : List RawRecord) = Except.ok Option.none := rfl

/-- C2 (amended): for empty input the aggregation returns the sentinel
`None` — a non-error value — rather than failing with `EmptyInputError`. -/
theorem c2_empty_returns_none (data : List RawRecord)
    (h : data.isEmpty = true) :
    calculate_statistics data = Except.ok Option.none := by
  unfold calculate_statistics
  rw [if_pos h]

theorem c2_witness :
    calculate_statistics ([] : List RawRecord) = Except.ok Option.none :=
  c2_empty_returns_none [] rfl

/-- C3 counterexample: a truthy non-numeric award amount (the string
"abc") is not coerced by the get-or-default normalization of line 47
(the result is not a number), and the aggregation then fails with a
`TypeError` when summing it. -/
theorem c3_counterexample :
    isNum (normAmount (some (PyVal.str "abc"))) = false ∧
    calculate_statistics
        [RawRecord.mk (some "A") (some (PyVal.str "abc")) Option.none] =
      Except.error PyError.typeError := by
  constructor
  · rfl
  · rfl

/-- C3 (amended): the inline normalization `x.get('Award Amount', 0) or 0`
turns a missing, null, empty-string or zero amount into `0` and keeps
numeric amounts unchanged, but a non-empty non-numeric string passes
through un-coerced (so downstream aggregation can fail on it, as the
counterexample shows). -/
theorem c3_normalization_defaults :
    normAmount Option.none = PyVal.num 0
  ∧ normAmount (some PyVal.none) = PyVal.num 0
  ∧ normAmount (some (PyVal.str "")) = PyVal.num 0
  ∧ (∀ q : Rat, normAmount (some (PyVal.num q)) = PyVal.num q)
  ∧ (∀ s : String, s ≠ "" → normAmount (some (PyVal.str s)) = PyVal.str s) := by
  refine ⟨rfl, rfl, by decide, normAmount_num, fun s hs => ?_⟩
  simp [normAmount, pyTruthy, hs]

theorem c3_witness :
    normAmount (some (PyVal.str "abc")) = PyVal.str "abc" :=
  c3_normalization_defaults.2.2.2.2 "abc" (by decide)

lemma posOf_ne_nil {rs : List (String × Rat)} (hpos : ∃ p ∈ rs, 0 < p.2) :
    (rs.map Prod.snd).filter (fun x => decide (0 < x)) ≠ [] := by
  obtain ⟨p, hp, hp0⟩ := hpos
  exact List.ne_nil_of_mem
    (List.mem_filter.mpr ⟨List.mem_map_of_mem Prod.snd hp, by simpa using hp0⟩)

/-- C7: whenever the aggregation returns statistics, `total_value` is the
sum of all award amounts (zeros included), `total_awards` is the record
count, and `average_award` is exactly `total_value / total_awards`. -/
theorem c7_totals_exact (rs : List (String × Rat)) (hne : rs ≠ [])
    (hpos : ∃ p ∈ rs, 0 < p.2) :
    ∃ s, calculate_statistics (mkRecs rs) = Except.ok (some s) ∧
      s.total_awards = rs.length ∧
      s.total_value = (rs.map Prod.snd).sum ∧
      s.average_award = s.total_value / (s.total_awards : Rat) := by
  refine ⟨statsFor rs, calc_eq rs hne (posOf_ne_nil hpos), rfl, rfl, ?_⟩
  simp [statsFor]

theorem c7_witness :
    ∃ s, calculate_statistics (mkRecs [("A", 100), ("B", 300)]) =
        Except.ok (some s) ∧
      s.total_awards = ([("A", 100), ("B", 300)] : List (String × Rat)).length ∧
      s.total_value = (([("A", 100), ("B", 300)] :
          List (String × Rat)).map Prod.snd).sum ∧
      s.average_award = s.total_value / (s.total_awards : Rat) :=
  c7_totals_exact [("A", 100), ("B", 300)] (by decide)
    ⟨("A", 100), by decide, by decide⟩

lemma sum_map_sub (xs : List Rat) (c : Rat) :
    (xs.map (fun x => x - c)).sum = xs.sum - xs.length * c := by
  induction xs with
  | nil => simp
  | cons x t ih =>
    simp only [List.map_cons, List.sum_cons, ih, List.length_cons]
    push_cast
    ring

/-- The textbook sample variance (n-1 denominator) of a series, following
the specification's description of the standard deviation. -/
def sampleVariance (xs : List Rat) : Rat :=
  ((xs.map (fun x => (x - xs.sum / (xs.length : Rat)) ^ 2)).sum) /
    ((xs.length : Rat) - 1)

lemma ssVar_eq_sampleVariance (xs : List Rat) (hne : xs ≠ []) :
    ssVar xs = sampleVariance xs := by
  have hlen : (xs.length : Rat) ≠ 0 :=
    Nat.cast_ne_zero.mpr (by simpa [List.length_eq_zero] using hne)
  unfold ssVar sampleVariance
  dsimp only
  have hsum : (xs.map (fun x => x - xs.sum / (xs.length : Rat))).sum = 0 := by
    rw [sum_map_sub]
    field_simp
  rw [hsum, List.map_map]
  have hmap : ((fun y => y * y) ∘ fun x => x - xs.sum / (xs.length : Rat)) =
      fun x => (x - xs.sum / (xs.length : Rat)) ^ 2 := by
    funext x
    simp [pow_two]
  rw [hmap]
  norm_num

/-- C6: whenever the aggregation returns statistics, the standard
deviation entry is `0` for a single record and the sample standard
deviation (n-1 denominator) of the full amount series (zeros included)
for more than one record. Since the standard deviation is an irrational
square root in general, the embedding tracks its square: `std_dev_sq` is
`0` exactly when `std_dev` is `0`, and equals the textbook sample
variance exactly when `std_dev` is the sample standard deviation. -/
theorem c6_std_dev (rs : List (String × Rat)) (hne : rs ≠ [])
    (hpos : ∃ p ∈ rs, 0 < p.2) :
    ∃ s, calculate_statistics (mkRecs rs) = Except.ok (some s) ∧
      s.std_dev_sq =
        if 1 < rs.length then sampleVariance (rs.map Prod.snd) else 0 := by
  refine ⟨statsFor rs, calc_eq rs hne (posOf_ne_nil hpos), ?_⟩
  have hlen : (rs.map Prod.snd).length = rs.length := List.length_map _ _
  show (if 1 < (rs.map Prod.snd).length then ssVar (rs.map Prod.snd) else 0) = _
  rw [hlen]
  by_cases h : 1 < rs.length
  · rw [if_pos h, if_pos h, ssVar_eq_sampleVariance]
    intro hmap
    exact hne (by simpa using congrArg List.length hmap)
  · rw [if_neg h, if_neg h]

theorem c6_witness :
    ∃ s, calculate_statistics (mkRecs [("A", 100), ("B", 300)]) =
        Except.ok (some s) ∧
      s.std_dev_sq =
        if 1 < ([("A", 100), ("B", 300)] : List (String × Rat)).length then
          sampleVariance (([("A", 100), ("B", 300)] :
            List (String × Rat)).map Prod.snd)
        else 0 :=
  c6_std_dev [("A", 100), ("B", 300)] (by decide)
    ⟨("A", 100), by decide, by decide⟩

/-- Lookup in an association list (first match). -/
def lookupG : List (String × Rat) → String → Option Rat
  | [], _ => Option.none
  | (k0, v0) :: t, k => if k0 = k then some v0 else lookupG t k

/-- The total award amount of recipient `k` across the records `rs`. -/
def sumFor (rs : List (String × Rat)) (k : String) : Rat :=
  ((rs.filter (fun p => decide (p.1 = k))).map Prod.snd).sum

lemma lookupG_update_self (acc : List (String × Rat)) (k : String) (a : Rat) :
    lookupG (updateGroup acc k a) k = some ((lookupG acc k).getD 0 + a) := by
  induction acc with
  | nil => simp [updateGroup, lookupG]
  | cons p t ih =>
    obtain ⟨k0, v0⟩ := p
    by_cases h : k0 = k
    · simp [updateGroup, lookupG, h]
    · simp [updateGroup, lookupG, h, ih]

lemma lookupG_update_ne (acc : List (String × Rat)) (k k' : String) (a : Rat)
    (h : k' ≠ k) :
    lookupG (updateGroup acc k a) k' = lookupG acc k' := by
  induction acc with
  | nil => simp [updateGroup, lookupG, Ne.symm h]
  | cons p t ih =>
    obtain ⟨k0, v0⟩ := p
    by_cases h0 : k0 = k
    · subst h0
      simp [updateGroup, lookupG, Ne.symm h]
    · by_cases h1 : k0 = k'
      · simp [updateGroup, lookupG, h0, h1, h]
      · simp [updateGroup, lookupG, h0, h1, ih]

lemma sumFor_cons (p : String × Rat) (t : List (String × Rat)) (k : String) :
    sumFor (p :: t) k = if p.1 = k then p.2 + sumFor t k else sumFor t k := by
  by_cases h : p.1 = k
  · simp [sumFor, List.filter_cons, h]
  · simp [sumFor, List.filter_cons, h]

lemma lookupG_fold : ∀ (rs acc : List (String × Rat)) (k : String),
    lookupG (rs.foldl (fun acc p => updateGroup acc p.1 p.2) acc) k =
      match lookupG acc k with
      | some v => some (v + sumFor rs k)
      | Option.none =>
        if k ∈ rs.map Prod.fst then some (sumFor rs k) else Option.none
  | [], acc, k => by
    cases h : lookupG acc k with
    | none => simp [h, sumFor]
    | some v => simp [h, sumFor]
  | p :: t, acc, k => by
    rw [List.foldl_cons, lookupG_fold t (updateGroup acc p.1 p.2) k]
    by_cases hp : p.1 = k
    · rw [← hp, lookupG_update_self]
      cases h : lookupG acc p.1 with
      | none =>
        simp [h, sumFor_cons, hp, add_assoc]
      | some v =>
        simp [h, sumFor_cons, hp, add_assoc]
    · rw [lookupG_update_ne acc p.1 k p.2 (Ne.symm hp)]
      cases h : lookupG acc k with
      | none =>
        simp only [h, sumFor_cons, if_neg hp, List.map_cons, List.mem_cons]
        by_cases hm : k ∈ t.map Prod.fst
        · rw [if_pos hm, if_pos (Or.inr hm)]
        · rw [if_neg hm, if_neg ?_]
          rintro (he | hm2)
          · exact hp he.symm
          · exact hm hm2
      | some v => simp [h, sumFor_cons, hp]

lemma keys_update (acc : List (String × Rat)) (k : String) (a : Rat) :
    (updateGroup acc k a).map Prod.fst =
      if k ∈ acc.map Prod.fst then acc.map Prod.fst
      else acc.map Prod.fst ++ [k] := by
  induction acc with
  | nil => simp [updateGroup]
  | cons p t ih =>
    obtain ⟨k0, v0⟩ := p
    by_cases h : k0 = k
    · simp [updateGroup, h]
    · simp only [updateGroup, if_neg h, List.map_cons, List.mem_cons, ih]
      by_cases h2 : k ∈ t.map Prod.fst
      · simp [h2, Ne.symm h]
      · simp [h2, Ne.symm h]

lemma keys_update_nodup (acc : List (String × Rat)) (k : String) (a : Rat)
    (h : (acc.map Prod.fst).Nodup) :
    ((updateGroup acc k a).map Prod.fst).Nodup := by
  rw [keys_update]
  by_cases hm : k ∈ acc.map Prod.fst
  · rwa [if_pos hm]
  · rw [if_neg hm]
    simp [List.nodup_append, h, hm]

lemma keys_fold_nodup : ∀ (rs acc : List (String × Rat)),
    (acc.map Prod.fst).Nodup →
    ((rs.foldl (fun acc p => updateGroup acc p.1 p.2) acc).map Prod.fst).Nodup
  | [], _, h => h
  | p :: t, acc, h => by
    rw [List.foldl_cons]
    exact keys_fold_nodup t _ (keys_update_nodup acc p.1 p.2 h)

lemma groupTotals_keys_nodup (rs : List (String × Rat)) :
    ((groupTotals rs).map Prod.fst).Nodup :=
  keys_fold_nodup rs [] List.nodup_nil

lemma mem_lookupG : ∀ (l : List (String × Rat)) (k : String) (v : Rat),
    (l.map Prod.fst).Nodup → (k, v) ∈ l → lookupG l k = some v
  | [], _, _, _, hm => absurd hm (List.not_mem_nil _)
  | (k0, v0) :: t, k, v, hnd, hm => by
    obtain ⟨hk0, hnd'⟩ := List.nodup_cons.mp hnd
    rcases List.mem_cons.mp hm with he | hm'
    · obtain ⟨rfl, rfl⟩ := Prod.mk.injEq .. ▸ he
      simp [lookupG]
    · by_cases h : k0 = k
      · subst h
        exact absurd (List.mem_map_of_mem Prod.fst hm') hk0
      · simp only [lookupG, if_neg h]
        exact mem_lookupG t k v hnd' hm'

/-- Every entry of the recipient-totals dict carries the total award
amount of its recipient over the whole input. -/
lemma groupTotals_sum (rs : List (String × Rat)) (p : String × Rat)
    (hp : p ∈ groupTotals rs) : p.2 = sumFor rs p.1 := by
  have hl : lookupG (groupTotals rs) p.1 = some p.2 :=
    mem_lookupG _ _ _ (groupTotals_keys_nodup rs) (by simpa using hp)
  rw [groupTotals, lookupG_fold rs [] p.1] at hl
  simp only [lookupG] at hl
  by_cases hm : p.1 ∈ rs.map Prod.fst
  · rw [if_pos hm] at hl
    exact (Option.some.injEq .. ▸ hl).symm
  · rw [if_neg hm] at hl
    cases hl

/-- C4: whenever the aggregation returns statistics, `top_recipients`
groups the records by recipient name, sums the award amounts per group,
and is a sequence of at most 5 pairs ordered descending by summed
amount; exact ties keep the order of the grouping dict, which is
first-appearance order (Python's `sorted` is stable), and in particular
records A,100 then B,100 rank A before B. -/
theorem c4_top_recipients (rs : List (String × Rat)) (hne : rs ≠ [])
    (hpos : ∃ p ∈ rs, 0 < p.2) :
    ∃ s, calculate_statistics (mkRecs rs) = Except.ok (some s) ∧
      s.top_recipients.length ≤ 5 ∧
      s.top_recipients.Pairwise rDesc ∧
      (∀ p ∈ s.top_recipients, p.2 = sumFor rs p.1) ∧
      (∀ a b : String × Rat, List.Sublist [a, b] (groupTotals rs) →
        a.2 = b.2 → List.Sublist [a, b] (sortDescBySnd (groupTotals rs))) ∧
      (∃ s2, calculate_statistics (mkRecs [("A", 100), ("B", 100)]) =
          Except.ok (some s2) ∧
        s2.top_recipients = [("A", 100), ("B", 100)]) := by
  refine ⟨statsFor rs, calc_eq rs hne (posOf_ne_nil hpos), ?_, ?_, ?_, ?_, ?_⟩
  · show ((sortDescBySnd (groupTotals rs)).take 5).length ≤ 5
    rw [List.length_take]
    exact min_le_left _ _
  · show ((sortDescBySnd (groupTotals rs)).take 5).Pairwise rDesc
    exact List.Pairwise.sublist (List.take_sublist 5 _)
      (List.sorted_insertionSort rDesc _)
  · intro p hp
    have h1 : p ∈ sortDescBySnd (groupTotals rs) := List.take_subset _ _ hp
    have h2 : p ∈ groupTotals rs := (List.mem_insertionSort rDesc).mp h1
    exact groupTotals_sum rs p h2
  · intro a b hs hab
    show List.Sublist [a, b] (List.insertionSort rDesc (groupTotals rs))
    exact List.pair_sublist_insertionSort (le_of_eq hab.symm) hs
  · refine ⟨statsFor [("A", 100), ("B", 100)],
      calc_eq _ (by decide) (by decide), ?_⟩
    decide

theorem c4_witness :
    ∃ s, calculate_statistics (mkRecs [("A", 100), ("B", 100)]) =
        Except.ok (some s) ∧
      s.top_recipients.length ≤ 5 ∧
      s.top_recipients.Pairwise rDesc ∧
      (∀ p ∈ s.top_recipients,
        p.2 = sumFor [("A", 100), ("B", 100)] p.1) ∧
      (∀ a b : String × Rat,
        List.Sublist [a, b] (groupTotals [("A", 100), ("B", 100)]) →
        a.2 = b.2 →
        List.Sublist [a, b]
          (sortDescBySnd (groupTotals [("A", 100), ("B", 100)]))) ∧
      (∃ s2, calculate_statistics (mkRecs [("A", 100), ("B", 100)]) =
          Except.ok (some s2) ∧
        s2.top_recipients = [("A", 100), ("B", 100)]) :=
  c4_top_recipients [("A", 100), ("B", 100)] (by decide)
    ⟨("A", 100), by decide, by decide⟩

lemma ratFloor_intCast (m : Int) : ((m : Rat)).floor = m := by
  have h : ((m : Rat)).floor = ⌊(m : Rat)⌋ := rfl
  rw [h, Int.floor_intCast]

lemma roundHalfEven_intCast (m : Int) : roundHalfEven (m : Rat) = m := by
  simp only [roundHalfEven, ratFloor_intCast, sub_self]
  norm_num

lemma fixed1_eval (q : Rat) (m : Int) (h : q * 10 = (m : Rat)) :
    fixed1 q = (if q < 0 then "-" else "") ++ toString (m.natAbs / 10) ++
      "." ++ toString (m.natAbs % 10) := by
  simp only [fixed1, h, roundHalfEven_intCast]

lemma comma2_eval (q : Rat) (m : Int) (h : q * 100 = (m : Rat)) :
    comma2 q = (if q < 0 then "-" else "") ++ commaFormat (m.natAbs / 100) ++
      "." ++ (if m.natAbs % 100 < 10 then "0" else "") ++
      toString (m.natAbs % 100) := by
  simp only [comma2, h, roundHalfEven_intCast]

lemma fc_eq_zero (a : Rat) (h : a = 0) : format_currency (some a) = "$0" := by
  simp only [format_currency]
  rw [if_pos h]

lemma fc_B (a : Rat) (h : 1000000000 ≤ a) :
    format_currency (some a) = "$" ++ fixed1 (a / 1000000000) ++ "B" := by
  simp only [format_currency]
  rw [if_neg (by intro h0; rw [h0] at h; norm_num at h), if_pos h]

lemma fc_M (a : Rat) (h1 : 1000000 ≤ a) (h2 : a < 1000000000) :
    format_currency (some a) = "$" ++ fixed1 (a / 1000000) ++ "M" := by
  simp only [format_currency]
  rw [if_neg (by intro h0; rw [h0] at h1; norm_num at h1),
    if_neg (not_le.mpr h2), if_pos h1]

lemma fc_K (a : Rat) (h1 : 1000 ≤ a) (h2 : a < 1000000) :
    format_currency (some a) = "$" ++ fixed1 (a / 1000) ++ "K" := by
  simp only [format_currency]
  rw [if_neg (by intro h0; rw [h0] at h1; norm_num at h1),
    if_neg (not_le.mpr (by linarith)), if_neg (not_le.mpr h2), if_pos h1]

lemma fc_small (a : Rat) (h0 : a ≠ 0) (h : a < 1000) :
    format_currency (some a) = "$" ++ comma2 a := by
  simp only [format_currency]
  rw [if_neg h0, if_neg (not_le.mpr (by linarith)),
    if_neg (not_le.mpr (by linarith)), if_neg (not_le.mpr h)]

/-- C5: `format_currency` returns the `$0` form for an absent or zero
amount, the one-decimal B/M/K suffix forms at the strict `at least`
thresholds, and otherwise the comma-separated two-decimal form; exactly
`1000` renders as `$1.0K`, `999.99` as `$999.99`, `1000000` as `$1.0M`. -/
theorem c5_format_currency_thresholds (a : Rat) :
    format_currency Option.none = "$0"
  ∧ (a = 0 → format_currency (some a) = "$0")
  ∧ (1000000000 ≤ a →
      format_currency (some a) = "$" ++ fixed1 (a / 1000000000) ++ "B")
  ∧ (1000000 ≤ a → a < 1000000000 →
      format_currency (some a) = "$" ++ fixed1 (a / 1000000) ++ "M")
  ∧ (1000 ≤ a → a < 1000000 →
      format_currency (some a) = "$" ++ fixed1 (a / 1000) ++ "K")
  ∧ (a ≠ 0 → a < 1000 → format_currency (some a) = "$" ++ comma2 a)
  ∧ format_currency (some 1000) = "$1.0K"
  ∧ format_currency (some (999.99 : Rat)) = "$999.99"
  ∧ format_currency (some 1000000) = "$1.0M" := by
  refine ⟨rfl, fc_eq_zero a, fc_B a, fc_M a, fc_K a, fc_small a, ?_, ?_, ?_⟩
  · rw [fc_K 1000 (by norm_num) (by norm_num),
      fixed1_eval ((1000 : Rat) / 1000) 10 (by norm_num),
      if_neg (show ¬((1000 : Rat) / 1000) < 0 by norm_num)]
    decide
  · rw [fc_small (999.99 : Rat) (by norm_num) (by norm_num),
      comma2_eval (999.99 : Rat) 99999 (by norm_num),
      if_neg (show ¬(999.99 : Rat) < 0 by norm_num)]
    decide
  · rw [fc_M 1000000 (by norm_num) (by norm_num),
      fixed1_eval ((1000000 : Rat) / 1000000) 10 (by norm_num),
      if_neg (show ¬((1000000 : Rat) / 1000000) < 0 by norm_num)]
    decide

theorem c5_witness :
    format_currency (some (1000 : Rat)) =
      "$" ++ fixed1 ((1000 : Rat) / 1000) ++ "K" :=
  (c5_format_currency_thresholds 1000).2.2.2.2.1 (by decide) (by decide)

/-- C10: a strictly negative amount falls through every suffix branch of
`format_currency` and is rendered in the plain comma-separated
two-decimal form; in particular `-1234.5` renders as `$-1,234.50`. -/
theorem c10_negative_plain_form (a : Rat) (h : a < 0) :
    format_currency (some a) = "$" ++ comma2 a ∧
    format_currency (some ((-1234.5 : Rat))) = "$-1,234.50" := by
  constructor
  · exact fc_small a (ne_of_lt h) (lt_trans h (by norm_num))
  · rw [fc_small ((-1234.5 : Rat)) (by norm_num) (by norm_num),
      comma2_eval ((-1234.5 : Rat)) (-123450) (by norm_num),
      if_pos (show ((-1234.5 : Rat)) < 0 by norm_num)]
    decide

theorem c10_witness :
    format_currency (some ((-1) : Rat)) = "$" ++ comma2 (-1) ∧
    format_currency (some ((-1234.5 : Rat))) = "$-1,234.50" :=
  c10_negative_plain_form (-1) (by decide)

/-- C8: `truncate_text` returns `N/A` for an absent, empty, or literal
`N/A` input; otherwise it returns the text unchanged when its length is
at most the limit, and the first `max_length` characters followed by an
ellipsis when longer. The listed example evaluations hold. -/
theorem c8_truncate (t : String) (m : Nat) (h1 : t ≠ "") (h2 : t ≠ "N/A") :
    (t.length ≤ m → truncate_text (some t) m = t)
  ∧ (m < t.length → truncate_text (some t) m = t.take m ++ "...")
  ∧ (∀ k : Nat, truncate_text Option.none k = "N/A"
      ∧ truncate_text (some "") k = "N/A"
      ∧ truncate_text (some "N/A") k = "N/A")
  ∧ truncate_text (some "abcdefghij") 5 = "abcde..."
  ∧ truncate_text (some "abc") 5 = "abc"
  ∧ truncate_text (some "") 5 = "N/A" := by
  have hor : ¬(t = "" ∨ t = "N/A") := not_or.mpr ⟨h1, h2⟩
  refine ⟨?_, ?_, ?_, by decide, by decide, by decide⟩
  · intro hle
    simp only [truncate_text]
    rw [if_neg hor, if_neg (not_lt.mpr hle)]
  · intro hlt
    simp only [truncate_text]
    rw [if_neg hor, if_pos hlt]
  · intro k
    refine ⟨rfl, rfl, ?_⟩
    simp [truncate_text]

theorem c8_witness :
    truncate_text (some "abcdefghij") 5 = "abcde..." :=
  (c8_truncate "abcdefghij" 5 (by decide) (by decide)).2.2.2.1

/-- Python str.lower, modelled as a character-wise lowering (the exit
token and its variants are ASCII, where this agrees with Python). -/
def pyLower (s : String) : String :=
  String.mk (s.data.map Char.toLower)

/-- Line 227: the prompt composed from the narrative summary and the
literal user question. -/
def composePrompt (summary question : String) : String :=
  "Answer the following question based on the provided information: \x27" ++
    summary ++ "\x27. Question: \x27" ++ question ++ "\x27"

/-- The states of the interactive query loop: waiting for the next
question, or terminated by the exit token. -/
inductive LoopState where
  | awaitingQuestion : LoopState
  | closed : LoopState
deriving DecidableEq

/-- Lines 223-229 of `script_llm.py`: the interactive query loop, run
against a finite script of user inputs. It returns the prompts sent to
the text-generation service, in order, and the state the loop is in
after consuming the script: `closed` once an input lowercases to
`exit` (line 225-226), else still awaiting input. -/
def runQueryLoop (summary : String) : List String → List String × LoopState
  | [] => ([], LoopState.awaitingQuestion)
  | q :: rest =>
    if pyLower q = "exit" then ([], LoopState.closed)
    else
      let r := runQueryLoop summary rest
      (composePrompt summary q :: r.1, r.2)

/-- C9: after any number of non-exit iterations, an input equal to the
exit token under case-insensitive comparison moves the loop to the
terminal `closed` state and no service call is made for it or for any
later input; any other input causes exactly one service call on its own
iteration. -/
theorem c9_exit_closes_loop (summary : String) (pre : List String)
    (q : String) (rest : List String)
    (hpre : ∀ p ∈ pre, pyLower p ≠ "exit") :
    (pyLower q = "exit" →
      runQueryLoop summary (pre ++ q :: rest) =
        (pre.map (composePrompt summary), LoopState.closed))
  ∧ (pyLower q ≠ "exit" →
      runQueryLoop summary (pre ++ q :: rest) =
        (pre.map (composePrompt summary) ++
          composePrompt summary q :: (runQueryLoop summary rest).1,
         (runQueryLoop summary rest).2)) := by
  induction pre with
  | nil =>
    constructor
    · intro hq
      simp [runQueryLoop, hq]
    · intro hq
      simp [runQueryLoop, hq]
  | cons p t ih =>
    have hp : pyLower p ≠ "exit" := hpre p (List.mem_cons_self p t)
    have iht := ih (fun x hx => hpre x (List.mem_cons_of_mem p hx))
    constructor
    · intro hq
      simp only [List.cons_append, runQueryLoop, if_neg hp, List.append_eq]
      rw [iht.1 hq]
      simp
    · intro hq
      simp only [List.cons_append, runQueryLoop, if_neg hp, List.append_eq]
      rw [iht.2 hq]
      simp

theorem c9_witness :
    runQueryLoop "s" (["what"] ++ "EXIT" :: []) =
      (["what"].map (composePrompt "s"), LoopState.closed) :=
  (c9_exit_closes_loop "s" ["what"] "EXIT" [] (by decide)).1 (by decide)
